import Mathlib

/-!
Verification of the nixl examples' peer-coordination and streaming-transfer
protocol (examples/python): shallow embedding of

  - utils/memory_utils.py   (write_uint64 / read_uint64),
  - utils/tcp_server.py     (the metadata key-value handler),
  - utils/metadata_utils.py (retrieve_agent_metadata / retrieve_descriptors),
  - send_recv/nixl_sender_receiver.py (sender and receiver main loops),
  - 2proc/nixl_api_2proc.py (handshake loops; same structure as send_recv),

together with theorems about the handshake, the ring pipeline's backpressure
and progress accounting, and the metadata store.
-/

namespace NixlModel

/-! ## Memory utilities (examples/python/utils/memory_utils.py)

`write_uint64` stores a value into an 8-byte little-endian NumPy uint64 view
of the memory at an address; `read_uint64` reads it back.  Memory cells are
modelled as the list of 8 byte values at the address (x86 NumPy layout is
little-endian).  NumPy uint64 assignment stores the value modulo 2^64
(= 18446744073709551616); every use in this repository writes values below
that bound. -/

/-- The 8 little-endian base-256 digits of a value below 2^64.
The divisors are 256^0 .. 256^7 written as literals. -/
def uint64LEBytes (v : Nat) : List Nat :=
  [v % 256,
   v / 256 % 256,
   v / 65536 % 256,
   v / 16777216 % 256,
   v / 4294967296 % 256,
   v / 1099511627776 % 256,
   v / 281474976710656 % 256,
   v / 72057594037927936 % 256]

/-- Recombine little-endian base-256 digits into a value. -/
def leBytesToNat (bytes : List Nat) : Nat :=
  bytes.foldr (fun b acc => b + 256 * acc) 0

/-- memory_utils.write_uint64: the 8 bytes stored at the address after
`arr[0] = value` on a uint64 view (value taken modulo 2^64). -/
def write_uint64 (value : Nat) : List Nat :=
  uint64LEBytes (value % 18446744073709551616)

/-- memory_utils.read_uint64: `int(arr[0])` on a uint64 view of the 8 bytes
at the address. -/
def read_uint64 (bytes : List Nat) : Nat :=
  leBytesToNat bytes

/-- The empty-slot marker written into each ring-buffer header:
0xFFFFFFFFFFFFFFFF (all ones; nixl_sender_receiver.py lines 107 and 189). -/
def SENTINEL : Nat := 18446744073709551615

/-! ## Metadata key-value store (examples/python/utils/tcp_server.py)

`MetadataHandler.handle` parses one JSON request and serves it against the
module-level `_metadata` dict.  The dict is modelled as a total function
from keys to optional values; the JSON transport layer is elided (requests
arrive already parsed).  Error-message strings keep the same information as
the Python ones but drop the quote characters around the interpolated key. -/

/-- The server's `_metadata` dict. -/
def MetadataStore := String → Option String

/-- One parsed request, as dispatched on `request.get("cmd")`. -/
inductive Request
  | set (key value : String)
  | get (key : String)
  | clear
  | unknown (cmd : String)

/-- One JSON response: `{"status": "OK"}`, `{"status": "OK", "value": v}`,
or `{"status": "ERROR", "message": m}`. -/
inductive Response
  | ok
  | okValue (value : String)
  | error (message : String)
deriving DecidableEq

/-- tcp_server.MetadataHandler.handle, lines 46-73: dispatch one request,
returning the updated store and the response written back. -/
def MetadataHandler.handle (store : MetadataStore) : Request → MetadataStore × Response
  | .set k v => (fun q => if q = k then some v else store q, .ok)
  | .get k =>
      (store,
        match store k with
        | some v => .okValue v
        | none => .error ("Key " ++ k ++ " not found"))
  | .clear => (fun _ => none, .ok)
  | .unknown c => (store, .error ("Unknown command: " ++ c))

/-! ## Claim theorems: C10 and C9 -/

/-- C10: write_uint64 followed by read_uint64 at the same address is the
identity on 64-bit values: every v below 2^64 round-trips exactly; in
particular the all-ones sentinel 0xFFFFFFFFFFFFFFFF round-trips, and it is
distinct from every valid sequence number below T whenever T < 2^64 - 1. -/
theorem C10_uint64_roundtrip :
    (∀ v : Nat, v < 18446744073709551616 → read_uint64 (write_uint64 v) = v) ∧
    read_uint64 (write_uint64 SENTINEL) = SENTINEL ∧
    (∀ T i : Nat, T < 18446744073709551615 → i < T → i ≠ SENTINEL) := by
  refine ⟨?_, ?_, ?_⟩
  · intro v hv
    simp only [read_uint64, write_uint64, uint64LEBytes, leBytesToNat, List.foldr,
      Nat.mod_eq_of_lt hv]
    omega
  · rfl
  · intro T i h1 h2
    simp only [SENTINEL]
    omega

/-- Witness for C10 at v = 7, T = 5, i = 2. -/
theorem C10_uint64_roundtrip_witness :
    read_uint64 (write_uint64 7) = 7 ∧ (2 : Nat) ≠ SENTINEL :=
  ⟨C10_uint64_roundtrip.1 7 (by norm_num),
   C10_uint64_roundtrip.2.2 5 2 (by norm_num) (by norm_num)⟩

/-- C9: in the metadata key-value store, operations on distinct keys do not
interfere: for distinct keys k1 and k2, SET(k1, v) leaves the value stored
under k2 unchanged, and the response of GET(k2) is the same before and after
the SET (so GET(k2) never observes v unless k2 already held it): the store
is a map keyed by string, not a single slot. -/
theorem C9_store_keys_independent :
    ∀ (store : MetadataStore) (k1 k2 v : String), k1 ≠ k2 →
      (MetadataHandler.handle store (.set k1 v)).1 k2 = store k2 ∧
      (MetadataHandler.handle ((MetadataHandler.handle store (.set k1 v)).1) (.get k2)).2
        = (MetadataHandler.handle store (.get k2)).2 := by
  intro store k1 k2 v hne
  have hk : (MetadataHandler.handle store (.set k1 v)).1 k2 = store k2 := by
    simp only [MetadataHandler.handle]
    rw [if_neg (fun h => hne h.symm)]
  refine ⟨hk, ?_⟩
  simp only [MetadataHandler.handle]
  rw [if_neg (fun h => hne h.symm)]

/-- Witness for C9: a concrete store holding b, after SET of a. -/
theorem C9_store_keys_independent_witness :
    ((MetadataHandler.handle (fun _ => none) (.set "a" "v")).1 "b" = none) ∧
    (MetadataHandler.handle ((MetadataHandler.handle (fun _ => none) (.set "a" "v")).1)
      (.get "b")).2 = (MetadataHandler.handle (fun _ => none) (.get "b")).2 :=
  C9_store_keys_independent (fun _ => none) "a" "b" "v" (by decide)

/-! ## Metadata retrieval (examples/python/utils/metadata_utils.py)

`retrieve_agent_metadata` (TCP branch, lines 144-166) polls the store in a
loop, sleeping 0.1 s between attempts, while the elapsed time is below the
timeout; if nothing arrived it returns None.  The etcd branch (lines
134-143) has the same 0.1 s-interval bounded-polling shape.  Real time is
modelled by attempt counts: the store is a function from the attempt index
(one index per 0.1 s polling interval) to the value visible at that moment,
and `budget` is the number of poll attempts the timeout allows
(timeout / 0.1, e.g. 100 for the default 10 s timeout, 5 for 0.5 s).
The base64 decode and `add_remote_agent` on success are external and
elided: the retrieved blob itself is returned.

`retrieve_descriptors` (lines 195-222) performs a single
`tcp_server.get_metadata` call and returns None if the key was absent;
there is no polling loop and no timeout parameter.  The base64 decode and
`deserialize_descs` on success are external and elided. -/

/-- The bounded polling loop of retrieve_agent_metadata: try the store at
attempt index t; on None, sleep one interval and retry while attempts
remain within the timeout budget. -/
def retrievePoll (store : Nat → Option String) : Nat → Nat → Option String
  | 0, _ => none
  | budget + 1, t =>
    match store t with
    | some v => some v
    | none => retrievePoll store budget (t + 1)

/-- metadata_utils.retrieve_agent_metadata: poll from attempt 0 with the
budget the timeout allows. -/
def retrieve_agent_metadata (budget : Nat) (store : Nat → Option String) : Option String :=
  retrievePoll store budget 0

/-- metadata_utils.retrieve_descriptors: one get_metadata call at attempt 0,
None if the key is absent at that moment. -/
def retrieve_descriptors (store : Nat → Option String) : Option String :=
  match store 0 with
  | some v => some v
  | none => none

/-- A store whose key is published one polling interval after the retrieval
starts: absent at attempt 0, present from attempt 1 on. -/
def lateStore : Nat → Option String :=
  fun t => if t = 0 then none else some "blob"

/-! ## Handshake (send_recv/nixl_sender_receiver.py and 2proc/nixl_api_2proc.py)

Both example drivers contain the same two handshake loops (receiver/target =
descriptor-holding side, sender/initiator = descriptor-requesting side).
A drain is the peer's entry of one `get_new_notifs()` result, as a list of
payloads in order; a missing peer key is modelled by the empty list (the
membership and scanning tests below treat the two identically, as the
Python code does).  Payloads are modelled as strings standing for the byte
strings on the wire. -/

/-- Byte-string test `msg.startswith(marker)`, phrased over the character
lists so that it evaluates by kernel reduction. -/
def strStartsWith (s marker : String) : Bool :=
  marker.toList.isPrefixOf s.toList

/-- Accumulating decimal parser over the characters of a payload. -/
def parseDigits : List Char → Nat → Option Nat
  | [], acc => some acc
  | c :: cs, acc =>
    if 48 ≤ c.toNat ∧ c.toNat ≤ 57 then
      parseDigits cs (acc * 10 + (c.toNat - 48))
    else none

/-- Python `int(s)` on the plain decimal strings this protocol exchanges:
the value of a nonempty all-digits string, None standing for the ValueError
raised on anything else.  (Python int also tolerates surrounding
whitespace, a sign and underscores; no payload in this protocol carries
those, and on the plain digit strings the two agree.) -/
def parseDecimal (s : String) : Option Nat :=
  match s.toList with
  | [] => none
  | cs => parseDigits cs 0

/-- A send performed by the descriptor-holding side's handshake loop. -/
inductive HsEvent
  | sendReady
  | sendDescs
deriving DecidableEq

/-- Descriptor-holding side (receiver lines 125-139, target lines 99-113):
each iteration sends READY, drains, and exits once the peer's READY is seen;
after the loop exactly one DESCS send happens.  Input: the successive
drains; None models a loop that never observes READY within them.  Output:
the sends performed, in order (the DESCS payload itself is the serialized
descriptor blob, opaque here). -/
def descHolderLoop : List (List String) → Option (List HsEvent)
  | [] => none
  | d :: rest =>
    if "READY" ∈ d then some [HsEvent.sendReady, HsEvent.sendDescs]
    else
      match descHolderLoop rest with
      | none => none
      | some evs => some (HsEvent.sendReady :: evs)

/-- Scan one drain for the first payload with the DESCS: marker and strip
the 6-byte marker from it (sender lines 285-288, initiator lines 191-194);
the `deserialize_descs` applied to the suffix is external and elided. -/
def firstDescsSuffix : List String → Option String
  | [] => none
  | m :: rest =>
    if strStartsWith m "DESCS:" then some (m.drop 6) else firstDescsSuffix rest

/-- Descriptor-requesting side (sender lines 274-294, initiator lines
179-200): each outer iteration sends READY when ready_count is a multiple
of 5, increments ready_count, then performs up to 3 drains, stopping at the
first drain holding a DESCS: payload; otherwise it sleeps and loops.
`drains t` is the result of the t-th `get_new_notifs()` call; `fuel` bounds
the outer iterations (None models a loop that never finds DESCS within it).
Output: the stripped suffix of the accepted payload, and the ready_count
values at which READY was sent. -/
def requesterLoop (drains : Nat → List String) : Nat → Nat → Nat → Option (String × List Nat)
  | 0, _, _ => none
  | fuel + 1, rc, t =>
    match firstDescsSuffix (drains t) with
    | some s => some (s, if rc % 5 = 0 then [rc] else [])
    | none =>
      match firstDescsSuffix (drains (t + 1)) with
      | some s => some (s, if rc % 5 = 0 then [rc] else [])
      | none =>
        match firstDescsSuffix (drains (t + 2)) with
        | some s => some (s, if rc % 5 = 0 then [rc] else [])
        | none =>
          match requesterLoop drains fuel (rc + 1) (t + 3) with
          | none => none
          | some (s, evs) => some (s, (if rc % 5 = 0 then [rc] else []) ++ evs)

/-! ## Claim theorems: C6 (corrected) and C4 -/

/-- C6 counterexample: the claim also asserts the polling-until-timeout
behavior for descriptor retrieval, but retrieve_descriptors does not poll.
With a key published one polling interval late, agent-metadata retrieval
(budget 5, i.e. timeout 0.5 s) polls until the key appears and succeeds,
while descriptor retrieval returns None although the key appears well
within any timeout: the descriptor path makes a single attempt and never
polls. -/
theorem C6_descriptors_do_not_poll :
    retrieve_agent_metadata 5 lateStore = some "blob" ∧
    retrieve_descriptors lateStore = none := by
  constructor <;> rfl

/-- C6 amended: retrieve of agent metadata polls the store once per
0.1-second interval until the key appears or the poll budget given by the
timeout is exhausted, and on a key that is never published it returns None
after exactly that finite budget of polls rather than blocking
indefinitely; retrieve of descriptors instead queries the store exactly
once, returning None immediately when the key is absent at that moment (it
also never blocks, but does not wait for the key either). -/
theorem C6_retrieve_polling_amended :
    (∀ budget t, retrievePoll (fun _ => none) budget t = none) ∧
    (∀ (store : Nat → Option String) budget t v, retrievePoll store budget t = some v →
      ∃ k, k < budget ∧ store (t + k) = some v ∧ ∀ j, j < k → store (t + j) = none) ∧
    (∀ store : Nat → Option String, store 0 = none → retrieve_descriptors store = none) ∧
    (∀ (store : Nat → Option String) v, store 0 = some v → retrieve_descriptors store = some v) := by
  refine ⟨?_, ?_, ?_, ?_⟩
  · intro budget
    induction budget with
    | zero => intro t; rfl
    | succ b ih => intro t; simpa [retrievePoll] using ih (t + 1)
  · intro store budget
    induction budget with
    | zero => intro t v h; exact absurd h (by simp [retrievePoll])
    | succ b ih =>
      intro t v h
      rw [retrievePoll] at h
      cases hst : store t with
      | some w =>
        rw [hst] at h
        refine ⟨0, by omega, ?_, by omega⟩
        rw [Nat.add_zero, hst]
        exact h
      | none =>
        rw [hst] at h
        obtain ⟨k, hk, hv, hbefore⟩ := ih (t + 1) v h
        refine ⟨k + 1, by omega, by rw [show t + (k + 1) = t + 1 + k by omega]; exact hv, ?_⟩
        intro j hj
        cases j with
        | zero => simpa using hst
        | succ j' =>
          rw [show t + (j' + 1) = t + 1 + j' by omega]
          exact hbefore j' (by omega)
  · intro store h
    simp [retrieve_descriptors, h]
  · intro store v h
    simp [retrieve_descriptors, h]

/-- Witness for the amended C6, instantiated on the late-published store. -/
theorem C6_retrieve_polling_amended_witness :
    retrievePoll lateStore 5 0 = some "blob" ∧
    ∃ k, k < 5 ∧ lateStore (0 + k) = some "blob" ∧ ∀ j, j < k → lateStore (0 + j) = none :=
  ⟨by rfl, C6_retrieve_polling_amended.2.1 lateStore 5 0 "blob" (by rfl)⟩

/-- C4: the descriptor-holding side re-sends READY on every loop iteration
until it observes a READY from the peer, and after that observation it
sends exactly one DESCS and no further READY: every terminating execution
produces the send sequence READY^n followed by a single final DESCS, with
n at least 1. -/
theorem C4_desc_holder_sends :
    ∀ (drains : List (List String)) (evs : List HsEvent),
      descHolderLoop drains = some evs →
      ∃ n, 1 ≤ n ∧ evs = List.replicate n HsEvent.sendReady ++ [HsEvent.sendDescs] := by
  intro drains
  induction drains with
  | nil => intro evs h; exact absurd h (by simp [descHolderLoop])
  | cons d rest ih =>
    intro evs h
    rw [descHolderLoop] at h
    by_cases hr : "READY" ∈ d
    · rw [if_pos hr] at h
      exact ⟨1, le_refl 1, by injection h with h2; exact h2.symm⟩
    · rw [if_neg hr] at h
      cases hrec : descHolderLoop rest with
      | none => rw [hrec] at h; exact absurd h (by simp)
      | some evs' =>
        rw [hrec] at h
        obtain ⟨n, hn, hform⟩ := ih evs' hrec
        refine ⟨n + 1, by omega, ?_⟩
        injection h with h2
        rw [← h2, hform]
        simp [List.replicate_succ]

/-- Witness for C4: the peer's READY arrives in the first drain. -/
theorem C4_desc_holder_sends_witness :
    descHolderLoop [["READY"]] = some [HsEvent.sendReady, HsEvent.sendDescs] ∧
    ∃ n, 1 ≤ n ∧ [HsEvent.sendReady, HsEvent.sendDescs]
      = List.replicate n HsEvent.sendReady ++ [HsEvent.sendDescs] :=
  ⟨by decide, C4_desc_holder_sends [["READY"]] [HsEvent.sendReady, HsEvent.sendDescs] (by decide)⟩

/-- READY is sent exactly when the current ready_count is a multiple of 5. -/
lemma sentList_mod5 (rc : Nat) : ∀ x ∈ (if rc % 5 = 0 then [rc] else []), x % 5 = 0 := by
  by_cases h : rc % 5 = 0 <;> simp [h]

/-- Soundness of the requester loop: any terminating run sent READY only at
ready_count multiples of 5, and returned the stripped suffix of the first
DESCS payload in drain order (all earlier drains held none). -/
lemma requesterLoop_sound (drains : Nat → List String) :
    ∀ fuel rc t s readies, requesterLoop drains fuel rc t = some (s, readies) →
      (∀ x ∈ readies, x % 5 = 0) ∧
      ∃ k, (∀ u, t ≤ u → u < t + k → firstDescsSuffix (drains u) = none) ∧
        firstDescsSuffix (drains (t + k)) = some s := by
  intro fuel
  induction fuel with
  | zero =>
    intro rc t s readies h
    exact absurd h (by simp [requesterLoop])
  | succ f ih =>
    intro rc t s readies h
    rw [requesterLoop] at h
    cases n0 : firstDescsSuffix (drains t) with
    | some s0 =>
      rw [n0] at h
      simp only [Option.some.injEq, Prod.mk.injEq] at h
      obtain ⟨hs, hr⟩ := h
      refine ⟨by rw [← hr]; exact sentList_mod5 rc, 0, by omega, ?_⟩
      rw [Nat.add_zero, n0, hs]
    | none =>
      rw [n0] at h
      cases n1 : firstDescsSuffix (drains (t + 1)) with
      | some s1 =>
        rw [n1] at h
        simp only [Option.some.injEq, Prod.mk.injEq] at h
        obtain ⟨hs, hr⟩ := h
        refine ⟨by rw [← hr]; exact sentList_mod5 rc, 1, ?_, by rw [n1, hs]⟩
        intro u h1 h2
        have : u = t := by omega
        rw [this]; exact n0
      | none =>
        rw [n1] at h
        cases n2 : firstDescsSuffix (drains (t + 2)) with
        | some s2 =>
          rw [n2] at h
          simp only [Option.some.injEq, Prod.mk.injEq] at h
          obtain ⟨hs, hr⟩ := h
          refine ⟨by rw [← hr]; exact sentList_mod5 rc, 2, ?_, by rw [n2, hs]⟩
          intro u h1 h2
          have hu : u = t ∨ u = t + 1 := by omega
          rcases hu with rfl | rfl
          · exact n0
          · exact n1
        | none =>
          rw [n2] at h
          cases hrec : requesterLoop drains f (rc + 1) (t + 3) with
          | none => rw [hrec] at h; exact absurd h (by simp)
          | some pr =>
            obtain ⟨s3, evs⟩ := pr
            rw [hrec] at h
            simp only [Option.some.injEq, Prod.mk.injEq] at h
            obtain ⟨hs, hr⟩ := h
            obtain ⟨hall, k, hk1, hk2⟩ := ih (rc + 1) (t + 3) s3 evs hrec
            constructor
            · intro x hx
              rw [← hr] at hx
              rcases List.mem_append.mp hx with hx | hx
              · exact sentList_mod5 rc x hx
              · exact hall x hx
            · refine ⟨k + 3, ?_, ?_⟩
              · intro u h1 h2
                by_cases hu : u < t + 3
                · have : u = t ∨ u = t + 1 ∨ u = t + 2 := by omega
                  rcases this with rfl | rfl | rfl
                  · exact n0
                  · exact n1
                  · exact n2
                · exact hk1 u (by omega) (by omega)
              · rw [show t + (k + 3) = t + 3 + k by omega, hk2, hs]

/-- Termination of the requester loop: if the first DESCS payload appears in
drain t0 and the fuel covers it, the loop returns its stripped suffix. -/
lemma requesterLoop_finds (drains : Nat → List String) (t0 : Nat) (s : String)
    (hbefore : ∀ u, u < t0 → firstDescsSuffix (drains u) = none)
    (hfound : firstDescsSuffix (drains t0) = some s) :
    ∀ fuel rc t, t ≤ t0 → t0 < t + 3 * fuel →
      ∃ readies, requesterLoop drains fuel rc t = some (s, readies) := by
  intro fuel
  induction fuel with
  | zero =>
    intro rc t h1 h2
    exact absurd h2 (by omega)
  | succ f ih =>
    intro rc t h1 h2
    by_cases e0 : t0 = t
    · subst e0
      exact ⟨_, by rw [requesterLoop, hfound]⟩
    · have n0 : firstDescsSuffix (drains t) = none := hbefore t (by omega)
      by_cases e1 : t0 = t + 1
      · exact ⟨_, by rw [requesterLoop, n0, ← e1, hfound]⟩
      · have n1 : firstDescsSuffix (drains (t + 1)) = none := hbefore (t + 1) (by omega)
        by_cases e2 : t0 = t + 2
        · exact ⟨_, by rw [requesterLoop, n0, n1, ← e2, hfound]⟩
        · have n2 : firstDescsSuffix (drains (t + 2)) = none := hbefore (t + 2) (by omega)
          obtain ⟨evs, heq⟩ := ih (rc + 1) (t + 3) (by omega) (by omega)
          exact ⟨_, by rw [requesterLoop, n0, n1, n2, heq]⟩

/-- C5: the descriptor-requesting side sends READY only on loop iterations
where ready_count is a multiple of 5, scans each drain for a DESCS: payload
and exits with the 6-byte marker stripped off it; a terminating run returns
the suffix of the first such payload in the delivered history, and whenever
a DESCS: payload eventually appears (with enough fuel to reach it) the loop
does terminate with that suffix. -/
theorem C5_requester_ready_throttle_first_descs :
    (∀ (drains : Nat → List String) (fuel : Nat) (s : String) (readies : List Nat),
        requesterLoop drains fuel 0 0 = some (s, readies) →
        (∀ x ∈ readies, x % 5 = 0) ∧
        ∃ k, (∀ u, u < k → firstDescsSuffix (drains u) = none) ∧
          firstDescsSuffix (drains k) = some s) ∧
    (∀ (drains : Nat → List String) (t0 : Nat) (s : String) (fuel : Nat),
        (∀ u, u < t0 → firstDescsSuffix (drains u) = none) →
        firstDescsSuffix (drains t0) = some s → t0 < 3 * fuel →
        ∃ readies, requesterLoop drains fuel 0 0 = some (s, readies)) := by
  constructor
  · intro drains fuel s readies h
    obtain ⟨hmod, k, hk1, hk2⟩ := requesterLoop_sound drains fuel 0 0 s readies h
    exact ⟨hmod, k, fun u hu => by simpa using hk1 u (by omega) (by omega),
      by simpa using hk2⟩
  · intro drains t0 s fuel hbefore hfound hfuel
    exact requesterLoop_finds drains t0 s hbefore hfound fuel 0 0 (by omega) (by omega)

/-- Drain history for the C5 witness: the 4th poll delivers a non-DESCS
payload followed by the DESCS payload; earlier polls deliver nothing. -/
def lateDescsDrains : Nat → List String :=
  fun t => if t = 4 then ["x", "DESCS:abc"] else []

/-- Witness for C5 on that history: the loop returns the stripped suffix. -/
theorem C5_requester_ready_throttle_first_descs_witness :
    ∃ readies, requesterLoop lateDescsDrains 2 0 0 = some ("abc", readies) :=
  C5_requester_ready_throttle_first_descs.2 lateDescsDrains 4 "abc" 2
    (by intro u hu
        have : u = 0 ∨ u = 1 ∨ u = 2 ∨ u = 3 := by omega
        rcases this with rfl | rfl | rfl | rfl <;> rfl)
    (by decide) (by omega)

/-! ## Sender main loop (send_recv/nixl_sender_receiver.py lines 323-418)

Counters are Python ints; the `ahead_count` subtraction is computed in Int.
The transfer engine and the memory writes are external effects that do not
touch the modelled counters; their outcomes enter through a per-iteration
environment: the drains returned by `get_new_notifs()` inside the
backpressure wait, the poll results of `check_xfer_state` on the slot's
previous handle, whether `transfer()` returned a non-ERR state, and the
drain of the opportunistic every-P-th progress check. -/

/-- Tri-state transfer outcome of the engine (PROC / DONE / ERR); an
exception from a handle that was never used, which the code catches and
treats as ready, is represented by a non-PROC element. -/
inductive XferState
  | PROC
  | DONE
  | ERR
deriving DecidableEq

/-- Lines 356-359 for one drained payload: payloads with the P: marker are
parsed and adopted only when strictly larger than the current progress;
other payloads are skipped; None models the ValueError of `int` on a
malformed P: payload (no such payload is sent in this protocol). -/
def applyProgressMsg (progress : Nat) (msg : String) : Option Nat :=
  if strStartsWith msg "P:" then
    match parseDecimal (msg.drop 2) with
    | some p => some (if progress < p then p else progress)
    | none => none
  else some progress

/-- Lines 355-359: fold one whole drain (the receiver's payload list of one
`get_new_notifs()` call) into the progress counter. -/
def drainProgress (progress : Nat) : List String → Option Nat
  | [] => some progress
  | msg :: rest =>
    match applyProgressMsg progress msg with
    | none => none
    | some p => drainProgress p rest

/-- The backpressure wait (lines 352-363): while `i - progress >= K`, drain
one `get_new_notifs()` result, update progress, recompute, sleep when still
at or above the threshold.  One drain is consumed per while-iteration; None
models a wait that outlives the supplied drains (it would keep spinning). -/
def bpLoop (K i : Nat) : List (List String) → Nat → Option Nat
  | [], progress =>
    if (K : Int) ≤ (i : Int) - (progress : Int) then none else some progress
  | d :: rest, progress =>
    if (K : Int) ≤ (i : Int) - (progress : Int) then
      match drainProgress progress d with
      | none => none
      | some p => bpLoop K i rest p
    else some progress

/-- Lines 346-363: the backpressure gate entered before issuing transfer i;
the wait loop runs only when the sender is at least K ahead. -/
def backpressureGate (K i progress : Nat) (drains : List (List String)) : Option Nat :=
  if (K : Int) ≤ (i : Int) - (progress : Int) then bpLoop K i drains progress
  else some progress

/-- The per-iteration environment of the sender loop. -/
structure SenderIterEnv where
  bpDrains : List (List String)
  slotWait : List XferState
  xferOk : Bool
  oppDrain : List String
deriving DecidableEq

/-- The sender's counters: transfers_sent, receiver_progress, max_ahead. -/
structure SenderState where
  sent : Nat
  progress : Nat
  maxAhead : Int
deriving DecidableEq

/-- Lines 324-328: transfers_sent = 0, receiver_progress = 0, max_ahead = 0. -/
def senderInit : SenderState := ⟨0, 0, 0⟩

/-- A `while check_xfer_state(h) == "PROC"` spin (lines 369-372 and
414-417): true once a poll reports a non-PROC state (or the handle raises,
represented by a non-PROC element); false models a poll list that never
leaves PROC (the code would spin forever). -/
def drainSlotPolls : List XferState → Bool
  | [] => false
  | s :: rest =>
    match s with
    | XferState.PROC => drainSlotPolls rest
    | _ => true

/-- One iteration of the sender loop body (lines 341-404): record
max_ahead, pass the backpressure gate, wait out the slot's previous
transfer, write the header and issue (external); on ERR break without
counting the transfer, otherwise count it and, every P-th transfer, drain
progress opportunistically.  The Bool is true when the loop continues. -/
def senderIter (K P : Nat) (st : SenderState) (env : SenderIterEnv) :
    Option (SenderState × Bool) :=
  match backpressureGate K st.sent st.progress env.bpDrains with
  | none => none
  | some p1 =>
    if drainSlotPolls env.slotWait then
      if env.xferOk then
        if (st.sent + 1) % P = 0 then
          match drainProgress p1 env.oppDrain with
          | none => none
          | some p2 =>
            some (⟨st.sent + 1, p2, max st.maxAhead ((st.sent : Int) - (st.progress : Int))⟩,
              true)
        else
          some (⟨st.sent + 1, p1, max st.maxAhead ((st.sent : Int) - (st.progress : Int))⟩,
            true)
      else
        some (⟨st.sent, p1, max st.maxAhead ((st.sent : Int) - (st.progress : Int))⟩,
          false)
    else none

/-- The sender's main while loop (line 340): run iterations while
transfers_sent < T, consuming one environment per iteration; stop early on
a break.  None models a run whose supplied environments end before the loop
does (or an inner wait that never finishes). -/
def senderRun (K P T : Nat) : SenderState → List SenderIterEnv → Option SenderState
  | st, [] => if st.sent < T then none else some st
  | st, env :: rest =>
    if st.sent < T then
      match senderIter K P st env with
      | none => none
      | some (st2, true) => senderRun K P T st2 rest
      | some (st2, false) => some st2
    else some st

/-- Lines 340-456: the main loop followed by the shutdown drain (lines
413-418), which polls every one of the N slot handles out of PROC, and only
then the release/deregister cleanup.  `polls i` is slot i's poll sequence;
None models a run that never reaches cleanup. -/
def senderMain (K P T N : Nat) (envs : List SenderIterEnv)
    (polls : Nat → List XferState) : Option SenderState :=
  match senderRun K P T senderInit envs with
  | none => none
  | some st =>
    if (List.range N).all (fun i => drainSlotPolls (polls i)) then some st else none

/-- One progress payload can only raise the progress counter. -/
lemma applyProgressMsg_mono (progress : Nat) (msg : String) (p : Nat)
    (h : applyProgressMsg progress msg = some p) : progress ≤ p := by
  unfold applyProgressMsg at h
  by_cases hm : strStartsWith msg "P:" = true
  · rw [if_pos hm] at h
    cases hp : parseDecimal (msg.drop 2) with
    | none => rw [hp] at h; exact absurd h (by simp)
    | some q =>
      rw [hp] at h
      injection h with h2
      by_cases hlt : progress < q
      · rw [if_pos hlt] at h2; omega
      · rw [if_neg hlt] at h2; omega
  · rw [if_neg hm] at h
    injection h with h2
    omega

/-- When a progress payload changes the counter, the new value is strictly
larger: updates adopt only strictly larger parsed values. -/
lemma applyProgressMsg_strict (progress : Nat) (msg : String) (p : Nat)
    (h : applyProgressMsg progress msg = some p) (hne : p ≠ progress) : progress < p := by
  unfold applyProgressMsg at h
  by_cases hm : strStartsWith msg "P:" = true
  · rw [if_pos hm] at h
    cases hp : parseDecimal (msg.drop 2) with
    | none => rw [hp] at h; exact absurd h (by simp)
    | some q =>
      rw [hp] at h
      injection h with h2
      by_cases hlt : progress < q
      · rw [if_pos hlt] at h2; omega
      · rw [if_neg hlt] at h2; exact absurd h2.symm hne
  · rw [if_neg hm] at h
    injection h with h2
    exact absurd h2.symm hne

/-- Folding a whole drain can only raise the progress counter. -/
lemma drainProgress_mono : ∀ (msgs : List String) (progress p : Nat),
    drainProgress progress msgs = some p → progress ≤ p := by
  intro msgs
  induction msgs with
  | nil =>
    intro progress p h
    rw [drainProgress] at h
    injection h with h2
    omega
  | cons m rest ih =>
    intro progress p h
    rw [drainProgress] at h
    cases ha : applyProgressMsg progress m with
    | none => rw [ha] at h; exact absurd h (by simp)
    | some q =>
      rw [ha] at h
      exact le_trans (applyProgressMsg_mono progress m q ha) (ih q p h)

/-- The backpressure wait exits only strictly below the threshold. -/
lemma bpLoop_post (K i : Nat) : ∀ (drains : List (List String)) (progress p : Nat),
    bpLoop K i drains progress = some p → (i : Int) - (p : Int) < (K : Int) := by
  intro drains
  induction drains with
  | nil =>
    intro progress p h
    rw [bpLoop] at h
    by_cases hc : (K : Int) ≤ (i : Int) - (progress : Int)
    · rw [if_pos hc] at h; exact absurd h (by simp)
    · rw [if_neg hc] at h; injection h with h2; subst h2; omega
  | cons d rest ih =>
    intro progress p h
    rw [bpLoop] at h
    by_cases hc : (K : Int) ≤ (i : Int) - (progress : Int)
    · rw [if_pos hc] at h
      cases hd : drainProgress progress d with
      | none => rw [hd] at h; exact absurd h (by simp)
      | some q => rw [hd] at h; exact ih q p h
    · rw [if_neg hc] at h; injection h with h2; subst h2; omega

/-- The backpressure wait can only raise the progress counter. -/
lemma bpLoop_mono (K i : Nat) : ∀ (drains : List (List String)) (progress p : Nat),
    bpLoop K i drains progress = some p → progress ≤ p := by
  intro drains
  induction drains with
  | nil =>
    intro progress p h
    rw [bpLoop] at h
    by_cases hc : (K : Int) ≤ (i : Int) - (progress : Int)
    · rw [if_pos hc] at h; exact absurd h (by simp)
    · rw [if_neg hc] at h; injection h with h2; omega
  | cons d rest ih =>
    intro progress p h
    rw [bpLoop] at h
    by_cases hc : (K : Int) ≤ (i : Int) - (progress : Int)
    · rw [if_pos hc] at h
      cases hd : drainProgress progress d with
      | none => rw [hd] at h; exact absurd h (by simp)
      | some q =>
        rw [hd] at h
        exact le_trans (drainProgress_mono d progress q hd) (ih q p h)
    · rw [if_neg hc] at h; injection h with h2; omega

/-- Passing the backpressure gate leaves the sender strictly less than K
ahead of the receiver's acknowledged progress. -/
lemma backpressureGate_post (K i progress : Nat) (drains : List (List String)) (p : Nat)
    (h : backpressureGate K i progress drains = some p) :
    (i : Int) - (p : Int) < (K : Int) := by
  unfold backpressureGate at h
  by_cases hc : (K : Int) ≤ (i : Int) - (progress : Int)
  · rw [if_pos hc] at h; exact bpLoop_post K i drains progress p h
  · rw [if_neg hc] at h; injection h with h2; subst h2; omega

/-- The backpressure gate can only raise the progress counter. -/
lemma backpressureGate_mono (K i progress : Nat) (drains : List (List String)) (p : Nat)
    (h : backpressureGate K i progress drains = some p) : progress ≤ p := by
  unfold backpressureGate at h
  by_cases hc : (K : Int) ≤ (i : Int) - (progress : Int)
  · rw [if_pos hc] at h; exact bpLoop_mono K i drains progress p h
  · rw [if_neg hc] at h; injection h with h2; omega

/-- Everything one sender iteration guarantees about the counters:
progress is non-decreasing, max_ahead records the pre-gate distance, the
post-iteration distance stays at most K, a continuing iteration counted
exactly one transfer, and a break came from an ERR issue and counted none. -/
lemma senderIter_spec (K P : Nat) (st : SenderState) (env : SenderIterEnv)
    (st2 : SenderState) (c : Bool) (h : senderIter K P st env = some (st2, c)) :
    st.progress ≤ st2.progress ∧
    st2.maxAhead = max st.maxAhead ((st.sent : Int) - (st.progress : Int)) ∧
    (st2.sent : Int) - (st2.progress : Int) ≤ (K : Int) ∧
    (c = true → st2.sent = st.sent + 1) ∧
    (c = false → env.xferOk = false ∧ st2.sent = st.sent) := by
  unfold senderIter at h
  split at h
  · exact absurd h (by simp)
  next p1 hg =>
    have gpost := backpressureGate_post K st.sent st.progress env.bpDrains p1 hg
    have gmono := backpressureGate_mono K st.sent st.progress env.bpDrains p1 hg
    split at h
    · split at h
      · split at h
        · split at h
          · exact absurd h (by simp)
          next p2 hd =>
            have dmono := drainProgress_mono env.oppDrain p1 p2 hd
            simp only [Option.some.injEq, Prod.mk.injEq] at h
            obtain ⟨hA, hb⟩ := h
            subst hA; subst hb
            exact ⟨show st.progress ≤ p2 by omega, rfl,
              show ((st.sent + 1 : Nat) : Int) - (p2 : Int) ≤ (K : Int) by omega,
              fun _ => rfl, fun hf => absurd hf (by decide)⟩
        · simp only [Option.some.injEq, Prod.mk.injEq] at h
          obtain ⟨hA, hb⟩ := h
          subst hA; subst hb
          exact ⟨show st.progress ≤ p1 by omega, rfl,
            show ((st.sent + 1 : Nat) : Int) - (p1 : Int) ≤ (K : Int) by omega,
            fun _ => rfl, fun hf => absurd hf (by decide)⟩
      next hx =>
        simp only [Option.some.injEq, Prod.mk.injEq] at h
        obtain ⟨hA, hb⟩ := h
        subst hA; subst hb
        exact ⟨show st.progress ≤ p1 by omega, rfl,
          show ((st.sent : Nat) : Int) - (p1 : Int) ≤ (K : Int) by omega,
          fun ht => absurd ht (by decide), fun _ => ⟨by simpa using hx, rfl⟩⟩
    · exact absurd h (by simp)

/-- Run-level invariant: a sender run started at most K ahead with
max_ahead at most K keeps max_ahead at most K. -/
lemma senderRun_maxAhead_le (K P T : Nat) :
    ∀ (envs : List SenderIterEnv) (st stf : SenderState),
      (st.sent : Int) - (st.progress : Int) ≤ (K : Int) → st.maxAhead ≤ (K : Int) →
      senderRun K P T st envs = some stf → stf.maxAhead ≤ (K : Int) := by
  intro envs
  induction envs with
  | nil =>
    intro st stf h1 h2 h
    rw [senderRun] at h
    by_cases hc : st.sent < T
    · rw [if_pos hc] at h; exact absurd h (by simp)
    · rw [if_neg hc] at h; injection h with h3; rw [← h3]; exact h2
  | cons env rest ih =>
    intro st stf h1 h2 h
    rw [senderRun] at h
    by_cases hc : st.sent < T
    · rw [if_pos hc] at h
      cases hi : senderIter K P st env with
      | none => rw [hi] at h; exact absurd h (by simp)
      | some pr =>
        obtain ⟨st2, c⟩ := pr
        rw [hi] at h
        obtain ⟨hmono, hmax, hinv, hct, hcf⟩ := senderIter_spec K P st env st2 c hi
        have hmax2 : st2.maxAhead ≤ (K : Int) := by
          rw [hmax]; exact max_le h2 (by omega)
        cases c with
        | true => exact ih st2 stf hinv hmax2 h
        | false => injection h with h3; rw [← h3]; exact hmax2
    · rw [if_neg hc] at h; injection h with h3; rw [← h3]; exact h2

/-! ## Claim theorems: C2, C3, C7 -/

/-- C2: the backpressure gate releases transfer i only once
i - receiver_progress < K, and over any complete run from the initial
counters the recorded max_ahead distance never exceeds K: the gate is
effective within one in-flight issue of slack. -/
theorem C2_backpressure_bound :
    (∀ (K i progress : Nat) (drains : List (List String)) (p : Nat),
        backpressureGate K i progress drains = some p →
        (i : Int) - (p : Int) < (K : Int)) ∧
    (∀ (K P T : Nat) (envs : List SenderIterEnv) (stf : SenderState),
        senderRun K P T senderInit envs = some stf → stf.maxAhead ≤ (K : Int)) := by
  constructor
  · exact backpressureGate_post
  · intro K P T envs stf h
    exact senderRun_maxAhead_le K P T envs senderInit stf
      (by simp only [senderInit]; omega) (by simp only [senderInit]; omega) h

/-- A sender-loop iteration whose transfer issues cleanly and whose waits
all resolve at once. -/
def envOk : SenderIterEnv := ⟨[], [XferState.DONE], true, []⟩

/-- Witness for C2: a two-transfer run with no progress messages. -/
theorem C2_backpressure_bound_witness :
    senderRun 2 1 2 senderInit [envOk, envOk] = some ⟨2, 0, 1⟩ ∧
    (⟨2, 0, 1⟩ : SenderState).maxAhead ≤ ((2 : Nat) : Int) :=
  ⟨by decide, C2_backpressure_bound.2 2 1 2 [envOk, envOk] ⟨2, 0, 1⟩ (by decide)⟩

/-- C3: the producer's receiver_progress is non-decreasing: a single parsed
P: payload replaces it only by a strictly larger value, folding any drain of
payloads (any order, duplicates included) can only raise it, and both
update sites of a loop iteration (backpressure drain and opportunistic
every-P-th drain) leave it no smaller. -/
theorem C3_receiver_progress_monotone :
    (∀ (progress : Nat) (msg : String) (p : Nat),
        applyProgressMsg progress msg = some p →
        progress ≤ p ∧ (p ≠ progress → progress < p)) ∧
    (∀ (progress : Nat) (msgs : List String) (p : Nat),
        drainProgress progress msgs = some p → progress ≤ p) ∧
    (∀ (K P : Nat) (st : SenderState) (env : SenderIterEnv) (st2 : SenderState) (c : Bool),
        senderIter K P st env = some (st2, c) → st.progress ≤ st2.progress) := by
  refine ⟨?_, ?_, ?_⟩
  · intro progress msg p h
    exact ⟨applyProgressMsg_mono progress msg p h,
      fun hne => applyProgressMsg_strict progress msg p h hne⟩
  · intro progress msgs p h
    exact drainProgress_mono msgs progress p h
  · intro K P st env st2 c h
    exact (senderIter_spec K P st env st2 c h).1

/-- Witness for C3: one P:7 payload raises progress 3 to 7. -/
theorem C3_receiver_progress_monotone_witness :
    drainProgress 3 ["P:7"] = some 7 ∧ (3 : Nat) ≤ 7 :=
  ⟨by decide, C3_receiver_progress_monotone.2.1 3 ["P:7"] 7 (by decide)⟩

/-- C7: an ERR from issuing a transfer breaks the loop at once — the failed
issue is not counted in transfers_sent and no later environment is
consumed — while cleanup is reached only after the shutdown drain has
polled every one of the N slot handles out of the in-progress state. -/
theorem C7_err_abort_and_drain :
    (∀ (K P : Nat) (st : SenderState) (env : SenderIterEnv) (st2 : SenderState),
        senderIter K P st env = some (st2, false) →
        env.xferOk = false ∧ st2.sent = st.sent) ∧
    (∀ (K P T : Nat) (st : SenderState) (env : SenderIterEnv)
        (rest : List SenderIterEnv) (st2 : SenderState),
        st.sent < T → senderIter K P st env = some (st2, false) →
        senderRun K P T st (env :: rest) = some st2) ∧
    (∀ (K P T N : Nat) (envs : List SenderIterEnv) (polls : Nat → List XferState)
        (stf : SenderState), senderMain K P T N envs polls = some stf →
        ∀ i, i < N → drainSlotPolls (polls i) = true) := by
  refine ⟨?_, ?_, ?_⟩
  · intro K P st env st2 h
    exact (senderIter_spec K P st env st2 false h).2.2.2.2 rfl
  · intro K P T st env rest st2 hlt h
    rw [senderRun, if_pos hlt, h]
  · intro K P T N envs polls stf h i hi
    unfold senderMain at h
    split at h
    · exact absurd h (by simp)
    · split at h
      next hall =>
        simp only [List.all_eq_true, List.mem_range] at hall
        exact hall i hi
      next hall => exact absurd h (by simp)

/-- A sender-loop iteration whose transfer issue reports ERR. -/
def envErr : SenderIterEnv := ⟨[], [XferState.DONE], false, []⟩

/-- Witness for C7: a run that hits ERR on its first issue, and a completed
run whose single slot handle polls to DONE. -/
theorem C7_err_abort_and_drain_witness :
    senderRun 2 1 5 senderInit [envErr, envErr] = some ⟨0, 0, 0⟩ ∧
    drainSlotPolls ((fun _ => [XferState.DONE]) 0) = true :=
  ⟨C7_err_abort_and_drain.2.1 2 1 5 senderInit envErr [envErr] ⟨0, 0, 0⟩ (by decide) (by decide),
   C7_err_abort_and_drain.2.2 2 1 0 1 [] (fun _ => [XferState.DONE]) senderInit (by decide)
     0 (by decide)⟩

/-! ## Receiver main loop (send_recv/nixl_sender_receiver.py lines 152-201)

For expected index i, the receiver busy-polls the slot's 8-byte header
until it reads i (lines 170-174), then re-checks the value against i and
counts a mismatch (lines 183-185), resets the header to the sentinel (line
189), counts the transfer, and every P-th accepted transfer sends one
progress payload `P:<count>` (lines 194-197).  The values successively
returned by read_uint64 during one iteration's polling are the iteration's
poll trace; the header reset is a local memory write with no effect on the
modelled counters. -/

/-- Lines 170-174: the busy-poll over one iteration's poll trace, returning
the header value seq held at loop exit; None models a trace in which the
expected value never shows up (the loop would spin forever). -/
def pollHeader (expected : Nat) : List Nat → Option Nat
  | [] => none
  | v :: rest => if v = expected then some v else pollHeader expected rest

/-- The header values the poll loop actually reads from a trace: every
value up to and including the first occurrence of the expected one. -/
def headerReads (expected : Nat) : List Nat → List Nat
  | [] => []
  | v :: rest => if v = expected then [v] else v :: headerReads expected rest

/-- The receiver's counters: transfers_received, sequence_mismatches, and
the progress payloads sent so far in order (progress_updates_sent is their
length). -/
structure RecvState where
  received : Nat
  mismatches : Nat
  progressSent : List String
deriving DecidableEq

/-- Lines 153-155: transfers_received = 0, sequence_mismatches = 0, no
progress updates sent. -/
def recvInit : RecvState := ⟨0, 0, []⟩

/-- One iteration of the receiver loop body (lines 164-198): poll the slot
header for the expected index, apply the mismatch check to the value seq
held at loop exit, reset the header to SENTINEL (external write), count the
transfer, and send `P:<count>` when the new count is a multiple of P. -/
def recvIter (P : Nat) (st : RecvState) (polls : List Nat) : Option RecvState :=
  match pollHeader st.received polls with
  | none => none
  | some seq =>
    some ⟨st.received + 1,
      (if seq = st.received then st.mismatches else st.mismatches + 1),
      (if (st.received + 1) % P = 0 then
        st.progressSent ++ ["P:" ++ toString (st.received + 1)]
      else st.progressSent)⟩

/-- The receiver's main while loop (line 164): run iterations while
transfers_received < T, consuming one poll trace per iteration.  None
models a run whose supplied traces end before the loop does. -/
def recvRun (P T : Nat) : RecvState → List (List Nat) → Option RecvState
  | st, [] => if st.received < T then none else some st
  | st, polls :: rest =>
    if st.received < T then
      match recvIter P st polls with
      | none => none
      | some st2 => recvRun P T st2 rest
    else some st

/-- The progress payloads a compliant receiver emits for the n accepted
indices a, a+1, ..., a+n-1: one `P:<i+1>` exactly when i+1 is a multiple
of P. -/
def progressMsgs (P : Nat) : Nat → Nat → List String
  | _, 0 => []
  | a, n + 1 =>
    (if (a + 1) % P = 0 then ["P:" ++ toString (a + 1)] else []) ++
      progressMsgs P (a + 1) n

/-- The busy-poll exits only on the expected value: the value seq examined
by the mismatch check of lines 183-185 always equals the expected index, so
that check can never fire. -/
lemma pollHeader_exits_expected : ∀ (polls : List Nat) (e v : Nat),
    pollHeader e polls = some v → v = e := by
  intro polls
  induction polls with
  | nil => intro e v h; exact absurd h (by simp [pollHeader])
  | cons w rest ih =>
    intro e v h
    rw [pollHeader] at h
    by_cases hw : w = e
    · rw [if_pos hw] at h; injection h with h2; omega
    · rw [if_neg hw] at h; exact ih e v h

/-- What one receiver iteration does to the counters: the transfer is
counted, the mismatch counter never moves (the poll loop only exits on the
expected value), and exactly the every-P-th progress payload is emitted. -/
lemma recvIter_some (P : Nat) (st : RecvState) (polls : List Nat) (st2 : RecvState)
    (h : recvIter P st polls = some st2) :
    st2.received = st.received + 1 ∧ st2.mismatches = st.mismatches ∧
    st2.progressSent = st.progressSent ++
      (if (st.received + 1) % P = 0 then ["P:" ++ toString (st.received + 1)] else []) := by
  unfold recvIter at h
  split at h
  · exact absurd h (by simp)
  next seq hps =>
    have hseq : seq = st.received := pollHeader_exits_expected polls st.received seq hps
    injection h with h2
    subst h2
    refine ⟨rfl, ?_, ?_⟩
    · show (if seq = st.received then st.mismatches else st.mismatches + 1) = st.mismatches
      rw [if_pos hseq]
    · show (if (st.received + 1) % P = 0 then
          st.progressSent ++ ["P:" ++ toString (st.received + 1)]
        else st.progressSent) = _
      by_cases hm : (st.received + 1) % P = 0 <;> simp [hm]

/-- Run-level accounting for the receiver: a complete run that needs n more
transfers ends with exactly T accepted, the mismatch counter unchanged, and
the canonical every-P-th progress payloads appended. -/
lemma recvRun_spec (P T : Nat) : ∀ (ptraces : List (List Nat)) (n : Nat) (st stf : RecvState),
    st.received + n = T → recvRun P T st ptraces = some stf →
    stf.received = T ∧ stf.mismatches = st.mismatches ∧
    stf.progressSent = st.progressSent ++ progressMsgs P st.received n := by
  intro ptraces
  induction ptraces with
  | nil =>
    intro n st stf hn h
    rw [recvRun] at h
    by_cases hc : st.received < T
    · rw [if_pos hc] at h; exact absurd h (by simp)
    · rw [if_neg hc] at h
      injection h with h2
      subst h2
      have hn0 : n = 0 := by omega
      subst hn0
      exact ⟨by omega, rfl, by simp [progressMsgs]⟩
  | cons polls rest ih =>
    intro n st stf hn h
    rw [recvRun] at h
    by_cases hc : st.received < T
    · rw [if_pos hc] at h
      cases hi : recvIter P st polls with
      | none => rw [hi] at h; exact absurd h (by simp)
      | some st2 =>
        rw [hi] at h
        obtain ⟨hr, hm, hp⟩ := recvIter_some P st polls st2 hi
        obtain ⟨n2, hn2⟩ : ∃ n2, n = n2 + 1 := ⟨n - 1, by omega⟩
        subst hn2
        obtain ⟨ih1, ih2, ih3⟩ := ih n2 st2 stf (by omega) h
        refine ⟨ih1, by rw [ih2, hm], ?_⟩
        rw [ih3, hp, hr, progressMsgs]
        simp [List.append_assoc]
    · rw [if_neg hc] at h
      injection h with h2
      subst h2
      have hn0 : n = 0 := by omega
      subst hn0
      exact ⟨by omega, rfl, by simp [progressMsgs]⟩

/-! ## Claim theorems: C8 and C1 -/

/-- C8: over any complete receiver run the progress payloads sent are
exactly one `P:` followed by the decimal rendering of i+1 for each accepted
index i with i+1 a multiple of P, in order, and none for any other index
(P is at least 1 in the source: max(1, NUM_BUFFERS // 4)). -/
theorem C8_progress_batch :
    ∀ (P T : Nat) (ptraces : List (List Nat)) (stf : RecvState),
      0 < P → recvRun P T recvInit ptraces = some stf →
      stf.received = T ∧ stf.progressSent = progressMsgs P 0 T := by
  intro P T ptraces stf _ h
  obtain ⟨h1, _, h3⟩ := recvRun_spec P T ptraces T recvInit stf (by simp [recvInit]) h
  refine ⟨h1, ?_⟩
  rw [h3]
  simp [recvInit]

/-- Witness for C8: P = 2, T = 4, every header arrives in order; the run
sends exactly P:2 and P:4. -/
theorem C8_progress_batch_witness :
    recvRun 2 4 recvInit [[0], [1], [2], [3]] = some ⟨4, 0, ["P:2", "P:4"]⟩ ∧
    ((⟨4, 0, ["P:2", "P:4"]⟩ : RecvState).received = 4 ∧
      (⟨4, 0, ["P:2", "P:4"]⟩ : RecvState).progressSent = progressMsgs 2 0 4) :=
  ⟨by decide,
    C8_progress_batch 2 4 [[0], [1], [2], [3]] ⟨4, 0, ["P:2", "P:4"]⟩ (by decide) (by decide)⟩

/-- C1 (code bug): a run in which the slot header is read with value 5
while index 0 is expected — an overrun observation — completes with
sequence_mismatches = 0: the poll loop of lines 170-174 exits only on
equality, so the mismatch branch of lines 183-185 is unreachable and the
differing read is silently ignored rather than counted. -/
theorem C1_overrun_read_not_counted :
    recvRun 16 1 recvInit [[5, 0]] = some ⟨1, 0, []⟩ ∧
    5 ∈ headerReads 0 [5, 0] ∧ (5 : Nat) ≠ 0 := by
  exact ⟨by decide, by decide, by decide⟩

end NixlModel
